import Mathlib

/-!
# loki-notification: decode, filter, route and format pipeline

A shallow embedding of `srv/handlers.go` and of the configuration records of
`internal/config/config.go`.

Modelling conventions.

* A Go `string` is a `GoString`, a list of characters. Every delimiter the
  handlers look at (`"`, `\`, `=`, the braces, the MarkdownV2 specials, the
  word characters of `\w`) is ASCII, so on UTF-8 text the byte-wise library
  routines and the character-wise definitions below agree.
* `int64` chat identifiers are integers; the handlers only compare them to 0.
* A Go `map[string]string` is a finite partial function `GoString → Option GoString`.
* Library routines (`strings.Contains`, `strings.Trim`, `strings.Replacer`,
  `regexp` with its leftmost-first backtracking preference, `fmt.Sprintf`
  with `%s` verbs) are modelled by their documented behaviour.
* `go s.handleEntry(...)` starts a task; the model records the started tasks
  in program order and the Telegram call each of them prepares.
-/

namespace LokiNotification

/-! ## Strings -/

/-- Go strings, as character sequences. -/
abbrev GoString := List Char

/-- Model of `strings.Contains(s, substr)`: some suffix of `s` starts with `substr`. -/
def stringsContains : GoString → GoString → Bool
  | [], substr => substr.isPrefixOf []
  | c :: cs, substr => substr.isPrefixOf (c :: cs) || stringsContains cs substr

/-- Model of `strings.TrimLeft(s, cutset)`. -/
def stringsTrimLeft (s cutset : GoString) : GoString :=
  s.dropWhile (fun c => cutset.contains c)

/-- Model of `strings.TrimRight(s, cutset)`. -/
def stringsTrimRight (s cutset : GoString) : GoString :=
  (s.reverse.dropWhile (fun c => cutset.contains c)).reverse

/-- Model of `strings.Trim(s, cutset)`: strip leading and trailing cutset characters. -/
def stringsTrim (s cutset : GoString) : GoString :=
  stringsTrimRight (stringsTrimLeft s cutset) cutset

/-! ## `strings.Replacer` -/

/-- The argument pairs `(old, new)` of `strings.NewReplacer`, in argument order. -/
abbrev Replacer := List (GoString × GoString)

/-- First pair, in argument order, whose non-empty `old` starts the remaining text. -/
def Replacer.lookup (r : Replacer) (s : GoString) : Option (GoString × GoString) :=
  r.find? (fun p => !p.1.isEmpty && p.1.isPrefixOf s)

/-- Worker of `Replacer.Replace`: `skip` counts the characters of a matched
`old` that are still to be passed over. -/
def Replacer.replaceAux (r : Replacer) : Nat → GoString → GoString
  | _, [] => []
  | skip + 1, _ :: cs => Replacer.replaceAux r skip cs
  | 0, c :: cs =>
    match Replacer.lookup r (c :: cs) with
    | some p => p.2 ++ Replacer.replaceAux r (p.1.length - 1) cs
    | none => c :: Replacer.replaceAux r 0 cs

/-- Model of `(*strings.Replacer).Replace`: replacements are performed in the
order they appear in the text, without overlapping matches; comparisons are
done in argument order. -/
def Replacer.Replace (r : Replacer) (s : GoString) : GoString :=
  Replacer.replaceAux r 0 s

/-- The replacer built in `escapeMarkdownV2`. -/
def markdownReplacer : Replacer :=
  [ ("_".toList, "\\_".toList),
    ("*".toList, "\\*".toList),
    ("[".toList, "\\[".toList),
    ("]".toList, "\\]".toList),
    ("(".toList, "\\(".toList),
    (")".toList, "\\)".toList),
    ("~".toList, "\\~".toList),
    ("\x60".toList, "\\\x60".toList),
    (">".toList, "\\>".toList),
    ("#".toList, "\\#".toList),
    ("+".toList, "\\+".toList),
    ("-".toList, "\\-".toList),
    ("=".toList, "\\=".toList),
    ("|".toList, "\\|".toList),
    ("\x7b".toList, "\\\x7b".toList),
    ("\x7d".toList, "\\\x7d".toList),
    (".".toList, "\\.".toList),
    ("!".toList, "\\!".toList) ]

/-- Source: `escapeMarkdownV2` escapes special characters for Telegram MarkdownV2. -/
def escapeMarkdownV2 (text : GoString) : GoString :=
  Replacer.Replace markdownReplacer text

/-- The escaped set as the specification lists it. -/
def markdownSpecials : List Char :=
  ['_', '*', '[', ']', '(', ')', '~', '\x60', '>', '#', '+', '-', '=', '|',
   '\x7b', '\x7d', '.', '!']

/-- The character-wise reference transform of the specification: a backslash
in front of every character of the escaped set, every other character alone. -/
def escapeReference (text : GoString) : GoString :=
  text.flatMap (fun c => if c ∈ markdownSpecials then ['\\', c] else [c])

/-! ## Configuration (`internal/config/config.go`) -/

/-- Source: `TelegramConfig`. -/
structure TelegramConfig where
  BotToken : GoString
  ChatId : Int
  deriving DecidableEq

/-- Source: `ChannelConfig`. -/
structure ChannelConfig where
  Name : GoString
  Needle : GoString
  TelegramToken : GoString
  TelegramChatId : Int
  deriving DecidableEq

/-- Source: `Config`, restricted to the fields the handlers read. -/
structure Config where
  Telegram : TelegramConfig
  Channels : List ChannelConfig
  deriving DecidableEq

/-! ## Channel routing (`handleEntry`) -/

/-- The `for _, channel := range s.cfg.Channels` loop of `handleEntry`, started
with the zero values of `telegramToken` and `telegramChatId`; the first
channel whose needle occurs in either name assigns both and breaks. -/
def channelLoop (containerName serviceName : GoString) : List ChannelConfig → GoString × Int
  | [] => ([], 0)
  | channel :: rest =>
    if stringsContains containerName channel.Needle || stringsContains serviceName channel.Needle then
      (channel.TelegramToken, channel.TelegramChatId)
    else
      channelLoop containerName serviceName rest

/-- The `(telegramToken, telegramChatId)` that `handleEntry` passes on to
`sendTelegramMessage`. -/
def resolveDestination (cfg : Config) (containerName serviceName : GoString) : GoString × Int :=
  let found := channelLoop containerName serviceName cfg.Channels
  if found.1 == [] || found.2 == 0 then
    (cfg.Telegram.BotToken, cfg.Telegram.ChatId)
  else
    found

/-- The needle test of the routing loop. -/
def channelMatches (containerName serviceName : GoString) (channel : ChannelConfig) : Bool :=
  stringsContains containerName channel.Needle || stringsContains serviceName channel.Needle

/-- The first rule, in declaration order, whose needle is a substring of the
container name or of the service name. -/
def firstMatchingRule (channels : List ChannelConfig) (containerName serviceName : GoString) :
    Option ChannelConfig :=
  channels.find? (fun channel =>
    decide (channel.Needle <:+: containerName ∨ channel.Needle <:+: serviceName))

/-- Routing as the specification words it: the credentials of the first rule
whose needle occurs in either name, the default pair when there is none. -/
def firstMatchOrDefault (cfg : Config) (containerName serviceName : GoString) : GoString × Int :=
  match firstMatchingRule cfg.Channels containerName serviceName with
  | some channel => (channel.TelegramToken, channel.TelegramChatId)
  | none => (cfg.Telegram.BotToken, cfg.Telegram.ChatId)

/-! ## Severity filter (`handleLokiPush`, inner condition) -/

/-- The condition guarding `go s.handleEntry(...)`. -/
def notifiable (line : GoString) : Bool :=
  stringsContains line "error".toList || stringsContains line "warning".toList ||
    stringsContains line "fatal".toList

/-! ## Regular expressions (`regexp`) -/

/-- Syntax of the regular expressions used by `parseLabels`: a character
class, concatenation, ordered alternation, greedy star and a numbered
capture group. -/
inductive Regex where
  | cls (p : Char → Bool)
  | cat (a b : Regex)
  | alt (a b : Regex)
  | star (a : Regex)
  | cap (n : Nat) (a : Regex)

/-- Submatch texts by group number; a group that took no part reads as `""`,
as in the result of `FindAllStringSubmatch`. -/
abbrev Caps := Nat → GoString

/-- No group has taken part yet. -/
def Caps.none : Caps := fun _ => []

/-- Record the text of group `n`. -/
def Caps.set (c : Caps) (n : Nat) (text : GoString) : Caps :=
  fun k => if k = n then text else c k

/-- Greedy iteration of `body`: every way of running one more iteration (in
the preference order of `body`, each followed by further iterations) comes
before stopping. An iteration has to consume input; `fuel` bounds the number
of iterations and is the length of the text still unread. -/
def starRun (body : GoString → Caps → List (GoString × Caps)) :
    Nat → GoString → Caps → List (GoString × Caps)
  | 0, s, c => [(s, c)]
  | fuel + 1, s, c =>
    ((body s c).filter (fun r => decide (r.1.length < s.length))).flatMap
        (fun r => starRun body fuel r.1 r.2) ++ [(s, c)]

/-- All the ways the expression matches a prefix of `s`, as pairs of the
unread rest and the captures, in the order a backtracking matcher explores
them: the head of the list is the match `regexp` reports at this position
(leftmost-first semantics). -/
def Regex.run : Regex → GoString → Caps → List (GoString × Caps)
  | .cls p, s, c =>
    match s with
    | [] => []
    | x :: xs => if p x then [(xs, c)] else []
  | .cat a b, s, c => (a.run s c).flatMap (fun r => b.run r.1 r.2)
  | .alt a b, s, c => a.run s c ++ b.run s c
  | .star a, s, c => starRun a.run s.length s c
  | .cap n a, s, c =>
    (a.run s c).map (fun r => (r.1, Caps.set r.2 n (s.take (s.length - r.1.length))))

/-- Leftmost match: the first position, scanning from the left, where the
expression matches, with the preferred match there. -/
def Regex.search (re : Regex) : GoString → Option (GoString × Caps)
  | [] => (re.run [] Caps.none).head?
  | x :: xs =>
    match re.run (x :: xs) Caps.none with
    | r :: _ => some r
    | [] => Regex.search re xs

/-- The loop of `regexp.(*Regexp).allMatches` with `n = -1`. `s` is the text
from the current search position on; `afterMatch` says that the previous
match ended exactly here. A non-empty match moves the position to its end; an
empty match at the position is dropped when it abuts the previous match, and
the position moves one character on. -/
def allMatchesAux (re : Regex) : Nat → Bool → GoString → List Caps
  | 0, _, _ => []
  | fuel + 1, afterMatch, s =>
    match Regex.search re s with
    | Option.none => []
    | some (rest, caps) =>
      if rest.length = s.length then
        let found := if afterMatch then [] else [caps]
        match s with
        | [] => found
        | _ :: s1 => found ++ allMatchesAux re fuel false s1
      else
        caps :: allMatchesAux re fuel true rest

/-- Model of `re.FindAllStringSubmatch(s, -1)`: one iteration per search
position, of which there are at most `len(s) + 1`. -/
def FindAllStringSubmatch (re : Regex) (s : GoString) : List Caps :=
  allMatchesAux re (s.length + 1) false s

/-- A single literal character. -/
def Regex.lit (ch : Char) : Regex := .cls (fun c => c == ch)

/-- One or more, greedy: `a+`. -/
def Regex.plus (a : Regex) : Regex := .cat a (.star a)

/-- Class `\w`: the word characters `[0-9A-Za-z_]`. -/
def isWord (c : Char) : Bool := c.isAlphanum || c == '_'

/-- Class `[^"\\]`. -/
def notQuoteBackslash (c : Char) : Bool := c != '"' && c != '\\'

/-- Class `[^"]`. -/
def notQuote (c : Char) : Bool := c != '"'

/-- Class `.`: any character but the newline. -/
def anyButNewline (c : Char) : Bool := c != '\n'

/-- The first alternative, `(\w+)=\\"([^"\\]*(?:\\.[^"\\]*)*)\\"`. -/
def escapedPairRe : Regex :=
  .cat (.cap 1 (Regex.plus (.cls isWord)))
    (.cat (Regex.lit '=')
      (.cat (Regex.lit '\\')
        (.cat (Regex.lit '"')
          (.cat
            (.cap 2
              (.cat (.star (.cls notQuoteBackslash))
                (.star
                  (.cat (Regex.lit '\\')
                    (.cat (.cls anyButNewline) (.star (.cls notQuoteBackslash)))))))
            (.cat (Regex.lit '\\') (Regex.lit '"'))))))

/-- The second alternative, `(\w+)="([^"]*)"`. -/
def plainPairRe : Regex :=
  .cat (.cap 3 (Regex.plus (.cls isWord)))
    (.cat (Regex.lit '=')
      (.cat (Regex.lit '"')
        (.cat (.cap 4 (.star (.cls notQuote))) (Regex.lit '"'))))

/-- The expression compiled in `parseLabels`. -/
def labelRe : Regex := .alt escapedPairRe plainPairRe

/-! ## Label parsing (`parseLabels`) -/

/-- Go `map[string]string`. -/
abbrev LabelMap := GoString → Option GoString

/-- The result of `make(map[string]string)`. -/
def LabelMap.empty : LabelMap := fun _ => Option.none

/-- The assignment `labels[key] = value`. -/
def LabelMap.set (labels : LabelMap) (key value : GoString) : LabelMap :=
  fun q => if q = key then some value else labels q

/-- The one-value index `labels[key]`: the zero value `""` for an absent key. -/
def LabelMap.index (labels : LabelMap) (key : GoString) : GoString :=
  (labels key).getD []

/-- The body of the `for _, match := range matches` loop. -/
def storeMatch (labels : LabelMap) (m : Caps) : LabelMap :=
  if m 1 ≠ [] then
    labels.set (m 1) (m 2)
  else if m 3 ≠ [] then
    labels.set (m 3) (m 4)
  else
    labels

/-- Source: `parseLabels`. -/
def parseLabels (labelStr : GoString) : LabelMap :=
  let labelStr := stringsTrim labelStr "\x7b\x7d".toList
  let found := FindAllStringSubmatch labelRe labelStr
  found.foldl storeMatch LabelMap.empty

/-! ## Push payload (`logproto`) -/

/-- Source: `logproto.Entry`; the timestamp is passed through uninterpreted. -/
structure Entry where
  Timestamp : Int
  Line : GoString
  deriving DecidableEq

/-- Source: `logproto.Stream`. -/
structure Stream where
  Labels : GoString
  Entries : List Entry
  deriving DecidableEq

/-- Source: `logproto.PushRequest`. -/
structure PushRequest where
  Streams : List Stream
  deriving DecidableEq

/-! ## Message formatting (`sendTelegramMessage`) -/

/-- The message handed to `bot.Send`: the token the bot is created with, the
chat it is addressed to, its text and its parse mode. -/
structure TelegramMessage where
  token : GoString
  chatId : Int
  text : GoString
  parseMode : GoString
  deriving DecidableEq

/-- Model of `fmt.Sprintf(format, arg)` for a format with a single `%s` verb,
given as the text before and after the verb. -/
def sprintf (before after arg : GoString) : GoString :=
  before ++ arg ++ after

/-- The text of `message` that `sendTelegramMessage` builds, statement by
statement. -/
def messageBody (containerName serviceName : GoString) (stream : Stream) (entry : Entry) :
    GoString :=
  let labels := parseLabels stream.Labels
  let message : GoString := []
  let level := labels.index "level".toList
  let message :=
    if level ≠ [] then
      message ++ sprintf "*Level:* \x60".toList "\x60\n".toList (escapeMarkdownV2 level)
    else message
  let message :=
    if containerName = [] ∧ serviceName = [] then
      message ++ sprintf "*Labels:* \x60".toList "\x60\n".toList (escapeMarkdownV2 stream.Labels)
    else message
  let message :=
    if containerName ≠ [] then
      message ++ sprintf "*Container:* \x60".toList "\x60\n".toList (escapeMarkdownV2 containerName)
    else message
  let message :=
    if serviceName ≠ [] then
      message ++ sprintf "*Service:* \x60".toList "\x60\n".toList (escapeMarkdownV2 serviceName)
    else message
  let message := message ++ sprintf "\x60\x60\x60\n".toList "\n\x60\x60\x60\n".toList entry.Line
  let fileName := labels.index "filename".toList
  let message :=
    if fileName ≠ [] then
      message ++ sprintf "*File:* \x60".toList "\x60\n".toList (escapeMarkdownV2 fileName)
    else message
  let host := labels.index "host".toList
  let message :=
    if host ≠ [] then
      message ++ sprintf "*Host:* \x60".toList "\x60\n".toList (escapeMarkdownV2 host)
    else message
  let ip := labels.index "ip".toList
  let message :=
    if ip ≠ [] then
      message ++ sprintf "*IpAddress:* \x60".toList "\x60\n".toList (escapeMarkdownV2 ip)
    else message
  let time := labels.index "time".toList
  let message :=
    if time ≠ [] then
      message ++ sprintf "*Time:* \x60".toList "\x60\n".toList (escapeMarkdownV2 time)
    else message
  message

/-- Source: `sendTelegramMessage`, up to the call of the Telegram client: the
message it asks the client to send. -/
def sendTelegramMessage (containerName serviceName telegramToken : GoString)
    (telegramChatId : Int) (stream : Stream) (entry : Entry) : TelegramMessage :=
  { token := telegramToken
    chatId := telegramChatId
    text := messageBody containerName serviceName stream entry
    parseMode := "MarkdownV2".toList }

/-- Source: `handleEntry`. -/
def handleEntry (cfg : Config) (containerName serviceName : GoString) (stream : Stream)
    (entry : Entry) : TelegramMessage :=
  let dest := resolveDestination cfg containerName serviceName
  sendTelegramMessage containerName serviceName dest.1 dest.2 stream entry

/-! ## Request handling (`handleLokiPush`) -/

/-- One started `go s.handleEntry(containerName, serviceName, stream, entry)`. -/
structure Dispatch where
  containerName : GoString
  serviceName : GoString
  stream : Stream
  entry : Entry
  deriving DecidableEq

/-- The JSON answer written by `c.JSON(status, gin.H{key: value})`. -/
structure Response where
  status : Nat
  key : GoString
  value : GoString
  deriving DecidableEq

/-- The two-value index `value, ok := labels[key]`. -/
def LabelMap.lookup (labels : LabelMap) (key : GoString) : GoString × Bool :=
  ((labels key).getD [], (labels key).isSome)

/-- The `containerName` and `serviceName` that `handleLokiPush` reads off the
label map of a stream. -/
def streamNames (labels : LabelMap) : GoString × GoString :=
  ((labels.lookup "container_name".toList).1, (labels.lookup "service_name".toList).1)

/-- The `for _, entry := range stream.Entries` loop: the dispatches it starts. -/
def entriesLoop (containerName serviceName : GoString) (stream : Stream) :
    List Entry → List Dispatch
  | [] => []
  | entry :: rest =>
    if notifiable entry.Line then
      ⟨containerName, serviceName, stream, entry⟩ :: entriesLoop containerName serviceName stream rest
    else
      entriesLoop containerName serviceName stream rest

/-- The `for i, stream := range req.Streams` loop: the dispatches it starts. -/
def streamsLoop : List Stream → List Dispatch
  | [] => []
  | stream :: rest =>
    let names := streamNames (parseLabels stream.Labels)
    entriesLoop names.1 names.2 stream stream.Entries ++ streamsLoop rest

/-- Source: `handleLokiPush`. Reading the body, `snappy.Decode` and
`req.Unmarshal` are steps that fail with an error text or return a value;
the result is the response written and the dispatches started. -/
def handleLokiPush (readAll : Except GoString (List Nat))
    (snappyDecode : List Nat → Except GoString (List Nat))
    (unmarshal : List Nat → Except GoString PushRequest) : Response × List Dispatch :=
  match readAll with
  | .error err => (⟨400, "error".toList, err⟩, [])
  | .ok body =>
    match snappyDecode body with
    | .error err => (⟨400, "error".toList, err⟩, [])
    | .ok decompressed =>
      match unmarshal decompressed with
      | .error err => (⟨400, "error".toList, err⟩, [])
      | .ok req => (⟨200, "message".toList, "OK".toList⟩, streamsLoop req.Streams)

/-- The Telegram message prepared by the task a dispatch starts. -/
def Dispatch.run (cfg : Config) (d : Dispatch) : TelegramMessage :=
  handleEntry cfg d.containerName d.serviceName d.stream d.entry

/-- The destination of the entries of a stream with label map `labels`: the
label lookup of `handleLokiPush` followed by the routing of `handleEntry`. -/
def streamDestination (cfg : Config) (labels : LabelMap) : GoString × Int :=
  resolveDestination cfg (streamNames labels).1 (streamNames labels).2

/-! ## Reference layouts of the specification -/

/-- One field of the message body as the specification renders it:
`*Name:*`, a blank, the escaped value in a code span and a newline when the
field is present, nothing otherwise. -/
def fieldLine (name value : GoString) (present : Bool) : GoString :=
  if present then
    "*".toList ++ name ++ ":* \x60".toList ++ escapeMarkdownV2 value ++ "\x60\n".toList
  else []

/-- The line text in a triple-backtick block, verbatim. -/
def fencedBlock (line : GoString) : GoString :=
  "\x60\x60\x60\n".toList ++ line ++ "\n\x60\x60\x60\n".toList

/-- The fields of the message body in their fixed order, with the presence of
the Labels field left open: every other optional field is present exactly
when its value is non-empty, the line is always present. -/
def fieldsLayout (labelsPresent : Bool) (containerName serviceName rawLabels line : GoString) :
    GoString :=
  let labels := parseLabels rawLabels
  List.flatten
    [ fieldLine "Level".toList (labels.index "level".toList)
        (decide (labels.index "level".toList ≠ [])),
      fieldLine "Labels".toList rawLabels labelsPresent,
      fieldLine "Container".toList containerName (decide (containerName ≠ [])),
      fieldLine "Service".toList serviceName (decide (serviceName ≠ [])),
      fencedBlock line,
      fieldLine "File".toList (labels.index "filename".toList)
        (decide (labels.index "filename".toList ≠ [])),
      fieldLine "Host".toList (labels.index "host".toList)
        (decide (labels.index "host".toList ≠ [])),
      fieldLine "IpAddress".toList (labels.index "ip".toList)
        (decide (labels.index "ip".toList ≠ [])),
      fieldLine "Time".toList (labels.index "time".toList)
        (decide (labels.index "time".toList ≠ [])) ]

/-- The body layout of the specification: Labels is the fallback for two
empty names and, like every field other than the line, is emitted only for a
non-empty source value, here the raw label string. -/
def bodyLayout (containerName serviceName rawLabels line : GoString) : GoString :=
  fieldsLayout (decide ((containerName = [] ∧ serviceName = []) ∧ rawLabels ≠ []))
    containerName serviceName rawLabels line

/-- The dispatches of a decoded payload as the specification words them: one
per notifiable entry, over all streams in order. -/
def notifiableDispatches (req : PushRequest) : List Dispatch :=
  req.Streams.flatMap (fun stream =>
    (stream.Entries.filter (fun entry => notifiable entry.Line)).map (fun entry =>
      { containerName := (parseLabels stream.Labels).index "container_name".toList
        serviceName := (parseLabels stream.Labels).index "service_name".toList
        stream := stream
        entry := entry }))

/-! ## Label strings of the specification -/

/-- One label written in the plain style, `k="v"`. -/
def renderPlain (p : GoString × GoString) : GoString :=
  p.1 ++ "=\"".toList ++ p.2 ++ "\"".toList

/-- One label written in the escaped style, `k=\"v\"`. -/
def renderEscaped (p : GoString × GoString) : GoString :=
  p.1 ++ "=\\\"".toList ++ p.2 ++ "\\\"".toList

/-- A label string: an opening brace, the written labels separated by a
comma and a blank, a closing brace. -/
def labelString (items : List GoString) : GoString :=
  "\x7b".toList ++ List.intercalate ", ".toList items ++ "\x7d".toList

/-- The map that sends each key of the list to the value of its last
occurrence and holds no other key. -/
def lastValue (pairs : List (GoString × GoString)) : LabelMap :=
  fun q => (pairs.reverse.find? (fun p => p.1 == q)).map Prod.snd


/-! ## Substring test -/

theorem stringsContains_iff (s substr : GoString) :
    stringsContains s substr = true ↔ substr <:+: s := by
  induction s with
  | nil => simp [stringsContains, List.infix_nil]
  | cons c cs ih =>
    simp only [stringsContains, Bool.or_eq_true, ih, List.isPrefixOf_iff_prefix,
      List.infix_cons_iff]

theorem channelMatches_eq (containerName serviceName : GoString) (channel : ChannelConfig) :
    channelMatches containerName serviceName channel =
      decide (channel.Needle <:+: containerName ∨ channel.Needle <:+: serviceName) := by
  rw [Bool.eq_iff_iff]
  simp [channelMatches, stringsContains_iff]

/-! ## Routing -/

theorem channelLoop_eq (containerName serviceName : GoString) (channels : List ChannelConfig) :
    channelLoop containerName serviceName channels =
      match firstMatchingRule channels containerName serviceName with
      | some channel => (channel.TelegramToken, channel.TelegramChatId)
      | none => ([], 0) := by
  induction channels with
  | nil => rfl
  | cons channel rest ih =>
    have hm := channelMatches_eq containerName serviceName channel
    unfold channelMatches at hm
    by_cases h : channel.Needle <:+: containerName ∨ channel.Needle <:+: serviceName
    · simp [channelLoop, firstMatchingRule, List.find?, hm, h]
    · simp only [channelLoop, hm, h, decide_False, Bool.false_eq_true, if_false, ih]
      simp [firstMatchingRule, List.find?, h]

theorem resolveDestination_eq (cfg : Config) (containerName serviceName : GoString) :
    resolveDestination cfg containerName serviceName =
      match firstMatchingRule cfg.Channels containerName serviceName with
      | some channel =>
        if channel.TelegramToken ≠ [] ∧ channel.TelegramChatId ≠ 0 then
          (channel.TelegramToken, channel.TelegramChatId)
        else (cfg.Telegram.BotToken, cfg.Telegram.ChatId)
      | none => (cfg.Telegram.BotToken, cfg.Telegram.ChatId) := by
  unfold resolveDestination
  rw [channelLoop_eq]
  cases firstMatchingRule cfg.Channels containerName serviceName with
  | none => simp
  | some channel =>
    by_cases h1 : channel.TelegramToken = [] <;> by_cases h2 : channel.TelegramChatId = 0 <;>
      simp [h1, h2]

/-- C10: the pair handed to the Telegram client is never mixed. It is the
complete pair of the first rule whose needle is a substring of the container
or service name when that rule has a non-empty token and a non-zero chat id,
and the complete default pair in every other case, also when the first
matching rule lacks a credential and a later rule matches too. -/
theorem handleEntry_pair_integrity :
    (∀ (cfg : Config) (containerName serviceName : GoString) (stream : Stream) (entry : Entry),
      ((handleEntry cfg containerName serviceName stream entry).token,
        (handleEntry cfg containerName serviceName stream entry).chatId) =
        match firstMatchingRule cfg.Channels containerName serviceName with
        | some channel =>
          if channel.TelegramToken ≠ [] ∧ channel.TelegramChatId ≠ 0 then
            (channel.TelegramToken, channel.TelegramChatId)
          else (cfg.Telegram.BotToken, cfg.Telegram.ChatId)
        | none => (cfg.Telegram.BotToken, cfg.Telegram.ChatId)) ∧
    ((handleEntry
          ⟨⟨"T0".toList, 7⟩,
            [⟨"first".toList, "auth".toList, [], 5⟩, ⟨"second".toList, "auth".toList, "T2".toList, 2⟩]⟩
          "auth-service".toList [] ⟨[], []⟩ ⟨0, []⟩).token,
      (handleEntry
          ⟨⟨"T0".toList, 7⟩,
            [⟨"first".toList, "auth".toList, [], 5⟩, ⟨"second".toList, "auth".toList, "T2".toList, 2⟩]⟩
          "auth-service".toList [] ⟨[], []⟩ ⟨0, []⟩).chatId) = ("T0".toList, 7) := by
  refine ⟨fun cfg containerName serviceName stream entry => ?_, by decide⟩
  rw [← resolveDestination_eq]
  rfl

/-- C1, as stated, fails: the only rule has needle `auth` and an empty token,
the container is `auth-service`; the code hands over the default pair, the
claim promises the credentials of the rule. -/
theorem handleEntry_first_match_counterexample :
    ((handleEntry ⟨⟨"T0".toList, 7⟩, [⟨"auth".toList, "auth".toList, [], 5⟩]⟩
          "auth-service".toList [] ⟨[], []⟩ ⟨0, []⟩).token,
      (handleEntry ⟨⟨"T0".toList, 7⟩, [⟨"auth".toList, "auth".toList, [], 5⟩]⟩
          "auth-service".toList [] ⟨[], []⟩ ⟨0, []⟩).chatId) = ("T0".toList, 7) ∧
    firstMatchOrDefault ⟨⟨"T0".toList, 7⟩, [⟨"auth".toList, "auth".toList, [], 5⟩]⟩
        "auth-service".toList [] = ([], 5) ∧
    ((handleEntry ⟨⟨"T0".toList, 7⟩, [⟨"auth".toList, "auth".toList, [], 5⟩]⟩
          "auth-service".toList [] ⟨[], []⟩ ⟨0, []⟩).token,
      (handleEntry ⟨⟨"T0".toList, 7⟩, [⟨"auth".toList, "auth".toList, [], 5⟩]⟩
          "auth-service".toList [] ⟨[], []⟩ ⟨0, []⟩).chatId) ≠
      firstMatchOrDefault ⟨⟨"T0".toList, 7⟩, [⟨"auth".toList, "auth".toList, [], 5⟩]⟩
        "auth-service".toList [] := by
  decide

/-- C1, amended: when the first rule whose needle is a substring of the
container or service name carries a non-empty token and a non-zero chat id,
the resolved pair is that rule's credentials; when no rule matches it is the
default pair. -/
theorem handleEntry_first_match (cfg : Config) (containerName serviceName : GoString)
    (stream : Stream) (entry : Entry)
    (h : ∀ channel, firstMatchingRule cfg.Channels containerName serviceName = some channel →
      channel.TelegramToken ≠ [] ∧ channel.TelegramChatId ≠ 0) :
    ((handleEntry cfg containerName serviceName stream entry).token,
      (handleEntry cfg containerName serviceName stream entry).chatId) =
      firstMatchOrDefault cfg containerName serviceName := by
  have hr : ((handleEntry cfg containerName serviceName stream entry).token,
      (handleEntry cfg containerName serviceName stream entry).chatId) =
      resolveDestination cfg containerName serviceName := rfl
  rw [hr, resolveDestination_eq]
  unfold firstMatchOrDefault
  cases hf : firstMatchingRule cfg.Channels containerName serviceName with
  | none => rfl
  | some channel => simp [h channel hf]

theorem handleEntry_first_match_witness :
    (∀ channel,
      firstMatchingRule [⟨"auth".toList, "auth".toList, "T1".toList, 1⟩]
          "auth-service".toList [] = some channel →
        channel.TelegramToken ≠ [] ∧ channel.TelegramChatId ≠ 0) ∧
    ((handleEntry ⟨⟨"T0".toList, 7⟩, [⟨"auth".toList, "auth".toList, "T1".toList, 1⟩]⟩
          "auth-service".toList [] ⟨[], []⟩ ⟨0, []⟩).token,
      (handleEntry ⟨⟨"T0".toList, 7⟩, [⟨"auth".toList, "auth".toList, "T1".toList, 1⟩]⟩
          "auth-service".toList [] ⟨[], []⟩ ⟨0, []⟩).chatId) =
      firstMatchOrDefault ⟨⟨"T0".toList, 7⟩, [⟨"auth".toList, "auth".toList, "T1".toList, 1⟩]⟩
        "auth-service".toList [] ∧
    firstMatchOrDefault ⟨⟨"T0".toList, 7⟩, [⟨"auth".toList, "auth".toList, "T1".toList, 1⟩]⟩
        "auth-service".toList [] = ("T1".toList, 1) :=
  have h : ∀ channel,
      firstMatchingRule [⟨"auth".toList, "auth".toList, "T1".toList, 1⟩]
          "auth-service".toList [] = some channel →
        channel.TelegramToken ≠ [] ∧ channel.TelegramChatId ≠ 0 := by
    intro channel hc
    have he : firstMatchingRule [⟨"auth".toList, "auth".toList, "T1".toList, 1⟩]
        "auth-service".toList [] = some ⟨"auth".toList, "auth".toList, "T1".toList, 1⟩ := by
      decide
    rw [he] at hc
    cases hc
    decide
  ⟨h, handleEntry_first_match
      ⟨⟨"T0".toList, 7⟩, [⟨"auth".toList, "auth".toList, "T1".toList, 1⟩]⟩
      "auth-service".toList [] ⟨[], []⟩ ⟨0, []⟩ h, by decide⟩

/-- C4: an entry is dispatched exactly when its line contains `error`,
`warning` or `fatal` as a case-sensitive substring at any position; the
upper-case `ERROR` alone does not count, `errors` does. -/
theorem notifiable_iff_contains_literal :
    (∀ line : GoString, notifiable line = true ↔
      ("error".toList <:+: line ∨ "warning".toList <:+: line ∨ "fatal".toList <:+: line)) ∧
    (∀ (containerName serviceName : GoString) (stream : Stream) (entry : Entry),
      entriesLoop containerName serviceName stream [entry] =
        if "error".toList <:+: entry.Line ∨ "warning".toList <:+: entry.Line ∨
            "fatal".toList <:+: entry.Line then
          [⟨containerName, serviceName, stream, entry⟩]
        else []) ∧
    notifiable "ERROR".toList = false ∧ notifiable "errors".toList = true := by
  have key : ∀ line : GoString, notifiable line = true ↔
      ("error".toList <:+: line ∨ "warning".toList <:+: line ∨ "fatal".toList <:+: line) := by
    intro line
    simp only [notifiable, Bool.or_eq_true, stringsContains_iff, or_assoc]
  refine ⟨key, fun containerName serviceName stream entry => ?_, by decide, by decide⟩
  by_cases h : notifiable entry.Line = true
  · simp only [entriesLoop, h, if_true, if_pos ((key _).mp h)]
  · have hf : notifiable entry.Line = false := by simpa using h
    simp only [entriesLoop, hf, Bool.false_eq_true, if_false,
      if_neg (fun hc => h ((key _).mpr hc))]


/-! ## Escaping -/

theorem markdownReplacer_eq :
    markdownReplacer =
      [(['_'], ['\\', '_']), (['*'], ['\\', '*']), (['['], ['\\', '[']), ([']'], ['\\', ']']),
       (['('], ['\\', '(']), ([')'], ['\\', ')']), (['~'], ['\\', '~']),
       (['\x60'], ['\\', '\x60']), (['>'], ['\\', '>']), (['#'], ['\\', '#']),
       (['+'], ['\\', '+']), (['-'], ['\\', '-']), (['='], ['\\', '=']), (['|'], ['\\', '|']),
       (['\x7b'], ['\\', '\x7b']), (['\x7d'], ['\\', '\x7d']), (['.'], ['\\', '.']),
       (['!'], ['\\', '!'])] := rfl

theorem markdownReplacer_lookup (c : Char) (cs : GoString) :
    Replacer.lookup markdownReplacer (c :: cs) =
      if c ∈ markdownSpecials then some ([c], ['\\', c]) else none := by
  by_cases h : c ∈ markdownSpecials
  · rw [if_pos h]
    simp only [markdownSpecials, List.mem_cons, List.mem_singleton, List.not_mem_nil,
      or_false] at h
    rw [markdownReplacer_eq]
    rcases h with h | h | h | h | h | h | h | h | h | h | h | h | h | h | h | h | h | h <;>
      subst h <;> simp [Replacer.lookup, List.find?, List.isPrefixOf]
  · rw [if_neg h]
    simp only [markdownSpecials, List.mem_cons, List.mem_singleton, List.not_mem_nil,
      or_false, not_or] at h
    rw [markdownReplacer_eq, Replacer.lookup, List.find?_eq_none]
    intro p hp
    simp only [List.mem_cons, List.mem_singleton, List.not_mem_nil, or_false] at hp
    rcases hp with hp | hp | hp | hp | hp | hp | hp | hp | hp | hp | hp | hp | hp | hp | hp |
      hp | hp | hp <;> subst hp <;> simp [List.isPrefixOf] <;> tauto

theorem escapeMarkdownV2_eq_reference (text : GoString) :
    escapeMarkdownV2 text = escapeReference text := by
  unfold escapeMarkdownV2 Replacer.Replace escapeReference
  induction text with
  | nil => rfl
  | cons c cs ih =>
    rw [Replacer.replaceAux, markdownReplacer_lookup, List.flatMap_cons]
    by_cases h : c ∈ markdownSpecials
    · simp only [h, if_true, List.length_singleton, Nat.sub_self, ih]
    · simp only [h, if_false, ih, List.singleton_append]


theorem escapeReference_cons (c : Char) (cs : GoString) :
    escapeReference (c :: cs) =
      (if c ∈ markdownSpecials then ['\\', c] else [c]) ++ escapeReference cs := by
  simp [escapeReference, List.flatMap_cons]

theorem backslash_not_special : '\\' ∉ markdownSpecials := by decide

theorem count_backslash_escapeReference (text : GoString) :
    (escapeReference text).count '\\' =
      text.count '\\' + text.countP (fun c => decide (c ∈ markdownSpecials)) := by
  induction text with
  | nil => rfl
  | cons c cs ih =>
    rw [escapeReference_cons, List.count_append, ih, List.count_cons, List.countP_cons]
    by_cases h : c ∈ markdownSpecials
    · have hc : c ≠ '\\' := fun e => backslash_not_special (e ▸ h)
      simp [h, hc, List.count_cons]
      omega
    · by_cases hb : c = '\\'
      · subst hb
        simp [h, List.count_cons]
        omega
      · simp [h, hb, List.count_cons]

theorem countP_special_escapeReference (text : GoString) :
    (escapeReference text).countP (fun c => decide (c ∈ markdownSpecials)) =
      text.countP (fun c => decide (c ∈ markdownSpecials)) := by
  induction text with
  | nil => rfl
  | cons c cs ih =>
    rw [escapeReference_cons, List.countP_append, ih, List.countP_cons]
    by_cases h : c ∈ markdownSpecials
    · simp [h, List.countP_cons, backslash_not_special]
      omega
    · simp [h, List.countP_cons]

theorem length_escapeReference (text : GoString) :
    (escapeReference text).length =
      text.length + text.countP (fun c => decide (c ∈ markdownSpecials)) := by
  induction text with
  | nil => rfl
  | cons c cs ih =>
    rw [escapeReference_cons, List.length_append, ih, List.countP_cons]
    by_cases h : c ∈ markdownSpecials
    · simp [h]
      omega
    · simp [h]
      omega

/-- C2: `escapeMarkdownV2` is the character-wise transform that puts one
backslash in front of every character of the escaped set and copies every
other character; `a.b_c*d` becomes `a\.b\_c\*d`. -/
theorem escapeMarkdownV2_characterwise :
    (∀ text : GoString, escapeMarkdownV2 text =
      text.flatMap (fun c => if c ∈ markdownSpecials then ['\\', c] else [c])) ∧
    escapeMarkdownV2 "a.b_c*d".toList = "a\\.b\\_c\\*d".toList :=
  ⟨fun text => escapeMarkdownV2_eq_reference text, by decide⟩

/-- C9, as stated, fails: the text made of one backslash is left alone by
`escapeMarkdownV2`, so escaping twice still has one backslash, not two. -/
theorem escape_twice_counterexample :
    (escapeMarkdownV2 (escapeMarkdownV2 ['\\'])).count '\\' = 1 ∧
    2 * (escapeMarkdownV2 ['\\']).count '\\' = 2 := by
  decide

/-- C9, amended: for every text without a backslash, escaping twice yields
twice as many backslashes as escaping once (for every text, the backslashes
after escaping twice plus those of the text are twice those after escaping
once); and a text with a character of the escaped set is not a fixed point. -/
theorem escape_twice_doubles_backslashes (text : GoString) :
    ((escapeMarkdownV2 (escapeMarkdownV2 text)).count '\\' + text.count '\\' =
      2 * (escapeMarkdownV2 text).count '\\') ∧
    ('\\' ∉ text →
      (escapeMarkdownV2 (escapeMarkdownV2 text)).count '\\' =
        2 * (escapeMarkdownV2 text).count '\\') ∧
    ((∃ c ∈ text, c ∈ markdownSpecials) → escapeMarkdownV2 text ≠ text) := by
  have h1 := count_backslash_escapeReference text
  have h2 := count_backslash_escapeReference (escapeReference text)
  have h3 := countP_special_escapeReference text
  simp only [escapeMarkdownV2_eq_reference]
  refine ⟨by omega, fun hb => ?_, fun hs he => ?_⟩
  · have h0 : text.count '\\' = 0 := List.count_eq_zero.mpr hb
    omega
  · have hl := length_escapeReference text
    rw [he] at hl
    obtain ⟨c, hc, hcs⟩ := hs
    have hpos : 0 < text.countP (fun c => decide (c ∈ markdownSpecials)) :=
      List.countP_pos_iff.mpr ⟨c, hc, by simpa using hcs⟩
    omega

theorem escape_twice_doubles_backslashes_witness :
    '\\' ∉ "a.b_c*d".toList ∧ (∃ c ∈ "a.b_c*d".toList, c ∈ markdownSpecials) ∧
    (escapeMarkdownV2 (escapeMarkdownV2 "a.b_c*d".toList)).count '\\' =
        2 * (escapeMarkdownV2 "a.b_c*d".toList).count '\\' ∧
    escapeMarkdownV2 "a.b_c*d".toList ≠ "a.b_c*d".toList :=
  ⟨by decide, ⟨'.', by decide, by decide⟩,
    (escape_twice_doubles_backslashes "a.b_c*d".toList).2.1 (by decide),
    (escape_twice_doubles_backslashes "a.b_c*d".toList).2.2 ⟨'.', by decide, by decide⟩⟩


/-! ## Message body -/

theorem append_if_eq (p : Prop) [Decidable p] (m x : GoString) :
    (if p then m ++ x else m) = m ++ (if p then x else []) := by
  split <;> simp

theorem fieldLine_decide (name value : GoString) (p : Prop) [Decidable p] :
    fieldLine name value (decide p) =
      if p then
        "*".toList ++ name ++ ":* \x60".toList ++ escapeMarkdownV2 value ++ "\x60\n".toList
      else [] := by
  by_cases h : p <;> simp [h, fieldLine]

theorem message_chain (p1 p2 p3 p4 p6 p7 p8 p9 : Prop) [Decidable p1] [Decidable p2]
    [Decidable p3] [Decidable p4] [Decidable p6] [Decidable p7] [Decidable p8] [Decidable p9]
    (x1 x2 x3 x4 x5 x6 x7 x8 x9 : GoString) :
    (let message : GoString := []
     let message := if p1 then message ++ x1 else message
     let message := if p2 then message ++ x2 else message
     let message := if p3 then message ++ x3 else message
     let message := if p4 then message ++ x4 else message
     let message := message ++ x5
     let message := if p6 then message ++ x6 else message
     let message := if p7 then message ++ x7 else message
     let message := if p8 then message ++ x8 else message
     let message := if p9 then message ++ x9 else message
     message) =
    List.flatten [if p1 then x1 else [], if p2 then x2 else [], if p3 then x3 else [],
      if p4 then x4 else [], x5, if p6 then x6 else [], if p7 then x7 else [],
      if p8 then x8 else [], if p9 then x9 else []] := by
  simp only [append_if_eq]
  simp only [List.nil_append, List.append_assoc, List.flatten, List.append_nil]

theorem text_eq_fieldsLayout (containerName serviceName telegramToken : GoString)
    (telegramChatId : Int) (stream : Stream) (entry : Entry) :
    (sendTelegramMessage containerName serviceName telegramToken telegramChatId
        stream entry).text =
      fieldsLayout (decide (containerName = [] ∧ serviceName = []))
        containerName serviceName stream.Labels entry.Line := by
  show messageBody containerName serviceName stream entry = _
  unfold messageBody fieldsLayout
  simp only [fieldLine_decide]
  exact message_chain _ _ _ _ _ _ _ _ _ _ _ _ _ _ _ _ _

/-- C3, as stated, fails: for a stream with the empty label string, no
container and no service name, the code emits a Labels field with an empty
value in front of the line, although the source value of that field is empty;
the layout of the claim has the fenced line only. -/
theorem sendTelegramMessage_body_layout_counterexample :
    (sendTelegramMessage [] [] "T".toList 1 ⟨[], []⟩ ⟨0, "error".toList⟩).text =
      "*Labels:* \x60\x60\n\x60\x60\x60\nerror\n\x60\x60\x60\n".toList ∧
    bodyLayout [] [] [] "error".toList = "\x60\x60\x60\nerror\n\x60\x60\x60\n".toList ∧
    (sendTelegramMessage [] [] "T".toList 1 ⟨[], []⟩ ⟨0, "error".toList⟩).text ≠
      bodyLayout [] [] [] "error".toList := by
  decide

/-- C3, amended: the body built by `sendTelegramMessage` is the concatenation,
in this order, of Level, Labels, Container, Service, the line in a
triple-backtick block, File, Host, IpAddress and Time; Labels is present
exactly when container and service name are both empty, whatever the raw
label string, also when it is empty; every other field but the line is
present exactly when its value is non-empty; every field but the line is
`*Name:*` followed by the escaped value in a code span and a newline; the
line is always present and unescaped. Whenever the raw label string or one of
the two names is non-empty, this is the layout of the claim as stated. -/
theorem sendTelegramMessage_body_layout :
    (∀ (containerName serviceName telegramToken : GoString) (telegramChatId : Int)
        (stream : Stream) (entry : Entry),
      (sendTelegramMessage containerName serviceName telegramToken telegramChatId
          stream entry).text =
        fieldsLayout (decide (containerName = [] ∧ serviceName = []))
          containerName serviceName stream.Labels entry.Line) ∧
    (∀ (containerName serviceName telegramToken : GoString) (telegramChatId : Int)
        (stream : Stream) (entry : Entry),
      (stream.Labels ≠ [] ∨ containerName ≠ [] ∨ serviceName ≠ []) →
      (sendTelegramMessage containerName serviceName telegramToken telegramChatId
          stream entry).text =
        bodyLayout containerName serviceName stream.Labels entry.Line) ∧
    (sendTelegramMessage "web".toList [] "T".toList 1
        ⟨"\x7bcontainer_name=\"web\"\x7d".toList, []⟩ ⟨0, "fatal: disk full".toList⟩).text =
      "*Container:* \x60web\x60\n\x60\x60\x60\nfatal: disk full\n\x60\x60\x60\n".toList := by
  refine ⟨text_eq_fieldsLayout, ?_, by decide⟩
  intro containerName serviceName telegramToken telegramChatId stream entry h
  rw [text_eq_fieldsLayout, bodyLayout]
  congr 1
  by_cases hnames : containerName = [] ∧ serviceName = []
  · have hraw : stream.Labels ≠ [] := by
      rcases h with h | h | h
      · exact h
      · exact absurd hnames.1 h
      · exact absurd hnames.2 h
    simp [hnames, hraw]
  · simp [hnames]

theorem sendTelegramMessage_body_layout_witness :
    ("\x7bcontainer_name=\"web\"\x7d".toList ≠ [] ∨ "web".toList ≠ [] ∨
      ([] : GoString) ≠ []) ∧
    (sendTelegramMessage "web".toList [] "T".toList 1
        ⟨"\x7bcontainer_name=\"web\"\x7d".toList, []⟩ ⟨0, "fatal: disk full".toList⟩).text =
      bodyLayout "web".toList [] "\x7bcontainer_name=\"web\"\x7d".toList
        "fatal: disk full".toList :=
  ⟨Or.inl (by decide),
    sendTelegramMessage_body_layout.2.1 "web".toList [] "T".toList 1
      ⟨"\x7bcontainer_name=\"web\"\x7d".toList, []⟩ ⟨0, "fatal: disk full".toList⟩
      (Or.inl (by decide))⟩

/-! ## Request outcome -/

theorem entriesLoop_eq (containerName serviceName : GoString) (stream : Stream)
    (entries : List Entry) :
    entriesLoop containerName serviceName stream entries =
      (entries.filter (fun entry => notifiable entry.Line)).map (fun entry =>
        { containerName := containerName, serviceName := serviceName, stream := stream,
          entry := entry }) := by
  induction entries with
  | nil => rfl
  | cons entry rest ih =>
    by_cases h : notifiable entry.Line = true <;> simp [entriesLoop, List.filter_cons, h, ih]

theorem streamsLoop_eq (streams : List Stream) :
    streamsLoop streams = notifiableDispatches ⟨streams⟩ := by
  induction streams with
  | nil => rfl
  | cons stream rest ih =>
    simp only [streamsLoop, ih, notifiableDispatches, List.flatMap_cons, entriesLoop_eq]
    rfl

/-- C8: when reading the body, snappy decoding or unmarshalling fails, the
response is status 400 with an error body and no dispatch is started; when
all three succeed, the response is status 200 with body "message": "OK" and
the dispatches started are exactly one per notifiable entry, over all streams
in order. One stream labelled container_name="web" with the single entry
"fatal: disk full" starts exactly one dispatch. -/
theorem handleLokiPush_outcome :
    (∀ (readAll : Except GoString (List Nat))
        (snappyDecode : List Nat → Except GoString (List Nat))
        (unmarshal : List Nat → Except GoString PushRequest),
      handleLokiPush readAll snappyDecode unmarshal =
        match readAll.bind (fun body => (snappyDecode body).bind unmarshal) with
        | .error err => (⟨400, "error".toList, err⟩, [])
        | .ok req => (⟨200, "message".toList, "OK".toList⟩, notifiableDispatches req)) ∧
    (handleLokiPush (.ok []) (fun bytes => .ok bytes)
        (fun _ => .ok ⟨[⟨"\x7bcontainer_name=\"web\"\x7d".toList,
          [⟨0, "fatal: disk full".toList⟩]⟩]⟩)).2 =
      [⟨"web".toList, [], ⟨"\x7bcontainer_name=\"web\"\x7d".toList,
          [⟨0, "fatal: disk full".toList⟩]⟩, ⟨0, "fatal: disk full".toList⟩⟩] := by
  refine ⟨fun readAll snappyDecode unmarshal => ?_, by decide⟩
  unfold handleLokiPush
  cases readAll with
  | error err => rfl
  | ok body =>
    simp only [Except.bind]
    cases snappyDecode body with
    | error err => rfl
    | ok decompressed =>
      simp only [Except.bind]
      cases unmarshal decompressed with
      | error err => rfl
      | ok req => simp only [streamsLoop_eq]

/-! ## Routing with absent labels -/

theorem channelLoop_nil_names (channels : List ChannelConfig)
    (h : ∀ channel ∈ channels, channel.Needle ≠ []) :
    channelLoop [] [] channels = ([], 0) := by
  induction channels with
  | nil => rfl
  | cons channel rest ih =>
    have hn : channel.Needle ≠ [] := h channel (List.mem_cons_self _ _)
    have hc : stringsContains [] channel.Needle = false := by
      cases hneedle : channel.Needle with
      | nil => exact absurd hneedle hn
      | cons x xs => rfl
    simp only [channelLoop, hc, Bool.or_self, Bool.false_eq_true, if_false]
    exact ih (fun c hc => h c (List.mem_cons_of_mem _ hc))

/-- C7, as stated, fails: with the rule of needle `auth` and the labels
service_name="auth-service" (no container_name), the entry goes to the rule's
destination, not to the default one. -/
theorem absent_label_counterexample :
    parseLabels "\x7bservice_name=\"auth-service\"\x7d".toList "container_name".toList = none ∧
    streamDestination ⟨⟨"T0".toList, 7⟩, [⟨"auth".toList, "auth".toList, "T1".toList, 1⟩]⟩
        (parseLabels "\x7bservice_name=\"auth-service\"\x7d".toList) = ("T1".toList, 1) ∧
    ("T1".toList, (1 : Int)) ≠ ("T0".toList, 7) := by
  decide

/-- C7, amended: for every rule list without an empty needle, every default
and every label map from which both container_name and service_name are
absent, the destination resolved for an entry of that stream is the default
pair. An absent key reads as the empty name; the other name is still matched
against the rules. -/
theorem absent_labels_route_to_default (cfg : Config) (labels : LabelMap)
    (hc : labels "container_name".toList = none) (hs : labels "service_name".toList = none)
    (hn : ∀ channel ∈ cfg.Channels, channel.Needle ≠ []) :
    streamDestination cfg labels = (cfg.Telegram.BotToken, cfg.Telegram.ChatId) := by
  have hnames : streamNames labels = ([], []) := by
    unfold streamNames LabelMap.lookup
    rw [hc, hs]
    rfl
  unfold streamDestination resolveDestination
  rw [hnames, channelLoop_nil_names cfg.Channels hn]
  rfl

theorem absent_labels_route_to_default_witness :
    parseLabels "\x7blevel=\"error\"\x7d".toList "container_name".toList = none ∧
    parseLabels "\x7blevel=\"error\"\x7d".toList "service_name".toList = none ∧
    streamDestination ⟨⟨"T0".toList, 7⟩, [⟨"auth".toList, "auth".toList, "T1".toList, 1⟩]⟩
        (parseLabels "\x7blevel=\"error\"\x7d".toList) = ("T0".toList, 7) :=
  ⟨by decide, by decide,
    absent_labels_route_to_default
      ⟨⟨"T0".toList, 7⟩, [⟨"auth".toList, "auth".toList, "T1".toList, 1⟩]⟩
      (parseLabels "\x7blevel=\"error\"\x7d".toList) (by decide) (by decide) (by decide)⟩


/-! ## Regular-expression runs -/

theorem run_cls_cons (p : Char → Bool) (x : Char) (s : GoString) (c : Caps) :
    (Regex.cls p).run (x :: s) c = if p x then [(s, c)] else [] := rfl

theorem run_cls_nil (p : Char → Bool) (c : Caps) : (Regex.cls p).run [] c = [] := rfl

theorem run_cat (a b : Regex) (s : GoString) (c : Caps) :
    (Regex.cat a b).run s c = (a.run s c).flatMap (fun r => b.run r.1 r.2) := rfl

theorem run_lit_cat_same (ch : Char) (rest : Regex) (s : GoString) (c : Caps) :
    (Regex.cat (Regex.lit ch) rest).run (ch :: s) c = rest.run s c := by
  simp [run_cat, Regex.lit, run_cls_cons]

theorem run_lit_cat_other (ch y : Char) (rest : Regex) (s : GoString) (c : Caps)
    (h : y ≠ ch) : (Regex.cat (Regex.lit ch) rest).run (y :: s) c = [] := by
  simp [run_cat, Regex.lit, run_cls_cons, h]

theorem run_lit_same (ch : Char) (s : GoString) (c : Caps) :
    (Regex.lit ch).run (ch :: s) c = [(s, c)] := by
  simp [Regex.lit, run_cls_cons]

/-- A greedy class star over `k ++ t`, where `k` lies in the class and `t`
does not start in it, followed by a continuation that fails whenever the
unread rest starts in the class: only the longest iteration survives. -/
theorem starRun_cls_flatMap {β : Type} (p : Char → Bool) (g : GoString × Caps → List β)
    (hg : ∀ x s c, p x = true → g (x :: s, c) = [])
    (t : GoString) (ht : ∀ y t1, t = y :: t1 → p y = false) (c : Caps) :
    ∀ (k : GoString), (∀ x ∈ k, p x = true) → ∀ fuel, k.length ≤ fuel →
      (starRun (Regex.cls p).run fuel (k ++ t) c).flatMap g = g (t, c) := by
  intro k
  induction k with
  | nil =>
    intro _ fuel _
    cases fuel with
    | zero => simp [starRun]
    | succ f =>
      have hb : (Regex.cls p).run t c = [] := by
        cases t with
        | nil => rfl
        | cons y t1 => simp [run_cls_cons, ht y t1 rfl]
      simp [starRun, hb]
  | cons x k1 ih =>
    intro hk fuel hf
    cases fuel with
    | zero => simp at hf
    | succ f =>
      have hx : p x = true := hk x (List.mem_cons_self _ _)
      have hk1 : ∀ y ∈ k1, p y = true := fun y hy => hk y (List.mem_cons_of_mem _ hy)
      have hf1 : k1.length ≤ f := by simpa using hf
      simp only [List.cons_append, starRun, run_cls_cons, hx, if_true]
      simp [ih hk1 f hf1, hg x (k1 ++ t) c hx]

theorem run_star (a : Regex) (s : GoString) (c : Caps) :
    (Regex.star a).run s c = starRun a.run s.length s c := rfl

theorem run_cap (n : Nat) (a : Regex) (s : GoString) (c : Caps) :
    (Regex.cap n a).run s c =
      (a.run s c).map (fun r => (r.1, Caps.set r.2 n (s.take (s.length - r.1.length)))) := rfl

theorem run_alt (a b : Regex) (s : GoString) (c : Caps) :
    (Regex.alt a b).run s c = a.run s c ++ b.run s c := rfl

theorem take_length_append_sub (k t : GoString) :
    (k ++ t).take ((k ++ t).length - t.length) = k := by
  simp

theorem run_cap_star_cat (p : Char → Bool) (n : Nat) (rest : Regex)
    (hrest : ∀ x s c, p x = true → rest.run (x :: s) c = [])
    (k t : GoString) (hk : ∀ x ∈ k, p x = true) (ht : ∀ y t1, t = y :: t1 → p y = false)
    (c : Caps) :
    (Regex.cat (Regex.cap n (Regex.star (Regex.cls p))) rest).run (k ++ t) c =
      rest.run t (Caps.set c n k) := by
  rw [run_cat, run_cap, run_star, List.flatMap_map]
  have h := starRun_cls_flatMap p
    (fun a : GoString × Caps => rest.run a.1
      (Caps.set a.2 n ((k ++ t).take ((k ++ t).length - a.1.length))))
    (fun x s c hx => hrest x s _ hx) t ht c k hk (k ++ t).length (by simp)
  rw [h]
  show rest.run t (Caps.set c n ((k ++ t).take ((k ++ t).length - t.length))) = _
  rw [take_length_append_sub]

theorem run_cap_plus_cat (p : Char → Bool) (n : Nat) (rest : Regex)
    (hrest : ∀ x s c, p x = true → rest.run (x :: s) c = [])
    (k t : GoString) (hne : k ≠ []) (hk : ∀ x ∈ k, p x = true)
    (ht : ∀ y t1, t = y :: t1 → p y = false) (c : Caps) :
    (Regex.cat (Regex.cap n (Regex.plus (Regex.cls p))) rest).run (k ++ t) c =
      rest.run t (Caps.set c n k) := by
  cases k with
  | nil => exact absurd rfl hne
  | cons x k1 =>
    have hx : p x = true := hk x (List.mem_cons_self _ _)
    have hk1 : ∀ y ∈ k1, p y = true := fun y hy => hk y (List.mem_cons_of_mem _ hy)
    rw [run_cat, run_cap, Regex.plus, run_cat, List.flatMap_map, List.cons_append,
      run_cls_cons, if_pos hx, List.flatMap_cons, List.flatMap_nil, List.append_nil, run_star]
    have h := starRun_cls_flatMap p
      (fun a : GoString × Caps => rest.run a.1
        (Caps.set a.2 n ((x :: k1 ++ t).take ((x :: k1 ++ t).length - a.1.length))))
      (fun x s c hx => hrest x s _ hx) t ht c k1 hk1 (k1 ++ t).length (by simp)
    have ht := take_length_append_sub (x :: k1) t
    simp only [List.cons_append] at h ht
    rw [h]
    show rest.run t (Caps.set c n ((x :: (k1 ++ t)).take ((x :: (k1 ++ t)).length - t.length))) = _
    rw [ht]

theorem run_plus_cat_nonmember (p : Char → Bool) (n : Nat) (rest : Regex) (y : Char)
    (s : GoString) (c : Caps) (hy : p y = false) :
    (Regex.cat (Regex.cap n (Regex.plus (Regex.cls p))) rest).run (y :: s) c = [] := by
  rw [run_cat, run_cap, Regex.plus, run_cat, run_cls_cons, hy]
  rfl

theorem run_plus_cat_nil (p : Char → Bool) (n : Nat) (rest : Regex) (c : Caps) :
    (Regex.cat (Regex.cap n (Regex.plus (Regex.cls p))) rest).run [] c = [] := rfl


/-! ## Fuel is never exhausted -/

theorem flatMap_congr_mem {α β : Type} (l : List α) (f g : α → List β)
    (h : ∀ a ∈ l, f a = g a) : l.flatMap f = l.flatMap g := by
  induction l with
  | nil => rfl
  | cons a l ih =>
    rw [List.flatMap_cons, List.flatMap_cons, h a (List.mem_cons_self _ _),
      ih (fun b hb => h b (List.mem_cons_of_mem _ hb))]

theorem starRun_fuel (body : GoString → Caps → List (GoString × Caps)) :
    ∀ (n m : Nat) (s : GoString) (c : Caps), s.length ≤ n → s.length ≤ m →
      starRun body n s c = starRun body m s c := by
  intro n
  induction n with
  | zero =>
    intro m s c hn _
    have hs : s = [] := List.length_eq_zero.mp (Nat.le_zero.mp hn)
    subst hs
    cases m with
    | zero => rfl
    | succ m => simp [starRun]
  | succ n ih =>
    intro m s c hn hm
    cases m with
    | zero =>
      have hs : s = [] := List.length_eq_zero.mp (Nat.le_zero.mp hm)
      subst hs
      simp [starRun]
    | succ m =>
      simp only [starRun]
      congr 1
      apply flatMap_congr_mem
      intro r hr
      have hlt : r.1.length < s.length := by
        simpa using (List.mem_filter.mp hr).2
      exact ih m r.1 r.2 (by omega) (by omega)

theorem starRun_length_le (body : GoString → Caps → List (GoString × Caps)) :
    ∀ (fuel : Nat) (s : GoString) (c : Caps), ∀ r ∈ starRun body fuel s c,
      r.1.length ≤ s.length := by
  intro fuel
  induction fuel with
  | zero =>
    intro s c r hr
    simp only [starRun, List.mem_singleton] at hr
    rw [hr]
  | succ f ih =>
    intro s c r hr
    simp only [starRun, List.mem_append, List.mem_flatMap, List.mem_singleton] at hr
    rcases hr with ⟨r1, hr1, hr⟩ | hr
    · have hlt : r1.1.length < s.length := by
        simpa using (List.mem_filter.mp hr1).2
      have := ih r1.1 r1.2 r hr
      omega
    · rw [hr]

theorem run_length_le (re : Regex) :
    ∀ (s : GoString) (c : Caps), ∀ r ∈ re.run s c, r.1.length ≤ s.length := by
  induction re with
  | cls p =>
    intro s c r hr
    cases s with
    | nil => simp [Regex.run] at hr
    | cons x xs =>
      rw [run_cls_cons] at hr
      by_cases hp : p x = true
      · simp only [hp, if_true, List.mem_singleton] at hr
        rw [hr]
        simp
      · simp [hp] at hr
  | cat a b iha ihb =>
    intro s c r hr
    rw [run_cat, List.mem_flatMap] at hr
    obtain ⟨r1, hr1, hr⟩ := hr
    have h1 := iha s c r1 hr1
    have h2 := ihb r1.1 r1.2 r hr
    omega
  | alt a b iha ihb =>
    intro s c r hr
    rw [run_alt, List.mem_append] at hr
    rcases hr with hr | hr
    · exact iha s c r hr
    · exact ihb s c r hr
  | star a _ =>
    intro s c r hr
    exact starRun_length_le a.run s.length s c r hr
  | cap n a iha =>
    intro s c r hr
    rw [run_cap, List.mem_map] at hr
    obtain ⟨r1, hr1, e⟩ := hr
    rw [← e]
    exact iha s c r1 hr1

theorem search_length_le (re : Regex) :
    ∀ (s rest : GoString) (caps : Caps), Regex.search re s = some (rest, caps) →
      rest.length ≤ s.length := by
  intro s
  induction s with
  | nil =>
    intro rest caps h
    rw [Regex.search] at h
    exact run_length_le re [] Caps.none (rest, caps) (List.mem_of_mem_head? h)
  | cons x xs ih =>
    intro rest caps h
    rw [Regex.search] at h
    cases hrun : re.run (x :: xs) Caps.none with
    | nil =>
      rw [hrun] at h
      have := ih rest caps h
      simp only [List.length_cons]
      omega
    | cons r rs =>
      rw [hrun] at h
      simp only [Option.some.injEq] at h
      have := run_length_le re (x :: xs) Caps.none r (by rw [hrun]; exact List.mem_cons_self _ _)
      rw [h] at this
      exact this

/-- More fuel than `len(s) + 1` does not change the matches found: the
iteration of `FindAllStringSubmatch` always ends by itself. -/
theorem allMatchesAux_fuel (re : Regex) :
    ∀ (n m : Nat) (afterMatch : Bool) (s : GoString), s.length < n → s.length < m →
      allMatchesAux re n afterMatch s = allMatchesAux re m afterMatch s := by
  intro n
  induction n with
  | zero => intro m afterMatch s hn; exact absurd hn (Nat.not_lt_zero _)
  | succ n ih =>
    intro m afterMatch s hn hm
    cases m with
    | zero => exact absurd hm (Nat.not_lt_zero _)
    | succ m =>
      simp only [allMatchesAux]
      cases hsearch : Regex.search re s with
      | none => rfl
      | some found =>
        obtain ⟨rest, caps⟩ := found
        have hle := search_length_le re s rest caps hsearch
        by_cases hlen : rest.length = s.length
        · simp only [hlen, if_true]
          cases s with
          | nil => rfl
          | cons x xs =>
            simp only
            rw [ih m false xs (by simpa using hn) (by simpa using hm)]
        · simp only [hlen, if_false]
          rw [ih m true rest (by omega) (by omega)]

/-! ## The label expression on a plain pair -/

theorem isWord_ne {x ch : Char} (hx : isWord x = true) (hch : isWord ch = false) : x ≠ ch :=
  fun e => by rw [e, hch] at hx; exact Bool.noConfusion hx

theorem plainPairRe_run (k v rest : GoString) (c : Caps) (hne : k ≠ [])
    (hk : ∀ x ∈ k, isWord x = true) (hv : '"' ∉ v) :
    plainPairRe.run (k ++ '=' :: '"' :: (v ++ '"' :: rest)) c =
      [(rest, Caps.set (Caps.set c 3 k) 4 v)] := by
  unfold plainPairRe
  rw [run_cap_plus_cat isWord 3 _
    (fun x s c hx => run_lit_cat_other '=' x _ s c (isWord_ne hx (by decide)))
    k _ hne hk (fun y t1 e => by cases e; decide) c]
  rw [run_lit_cat_same, run_lit_cat_same]
  rw [run_cap_star_cat notQuote 4 _
    (fun x s c hx => by
      have hne : x ≠ '"' := by simpa [notQuote] using hx
      simp [Regex.lit, run_cls_cons, hne])
    v _ (fun x hx => by
      have : x ≠ '"' := fun e => hv (e ▸ hx)
      simpa [notQuote] using this)
    (fun y t1 e => by cases e; decide)]
  rw [run_lit_same]

theorem escapedPairRe_run_plain (k s : GoString) (c : Caps) (hne : k ≠ [])
    (hk : ∀ x ∈ k, isWord x = true) :
    escapedPairRe.run (k ++ '=' :: '"' :: s) c = [] := by
  unfold escapedPairRe
  rw [run_cap_plus_cat isWord 1 _
    (fun x s c hx => run_lit_cat_other '=' x _ s c (isWord_ne hx (by decide)))
    k _ hne hk (fun y t1 e => by cases e; decide) c]
  rw [run_lit_cat_same, run_lit_cat_other '\\' '"' _ _ _ (by decide)]

theorem labelRe_run_plain (p : GoString × GoString) (rest : GoString) (hne : p.1 ≠ [])
    (hk : ∀ x ∈ p.1, isWord x = true) (hv : '"' ∉ p.2) :
    labelRe.run (renderPlain p ++ rest) Caps.none =
      [(rest, Caps.set (Caps.set Caps.none 3 p.1) 4 p.2)] := by
  have e : renderPlain p ++ rest = p.1 ++ '=' :: '"' :: (p.2 ++ '"' :: rest) := by
    simp [renderPlain]
  rw [e, labelRe, run_alt, escapedPairRe_run_plain p.1 _ _ hne hk,
    plainPairRe_run p.1 p.2 rest _ hne hk hv]
  rfl

theorem labelRe_run_nonword (y : Char) (s : GoString) (c : Caps) (hy : isWord y = false) :
    labelRe.run (y :: s) c = [] := by
  rw [labelRe, run_alt, escapedPairRe, plainPairRe, run_plus_cat_nonmember isWord 1 _ y s c hy,
    run_plus_cat_nonmember isWord 3 _ y s c hy]
  rfl

theorem labelRe_run_nil (c : Caps) : labelRe.run [] c = [] := rfl

/-! ## Searching and iterating over a label string -/

theorem search_skip_nonword (pre s : GoString) (hpre : ∀ y ∈ pre, isWord y = false) :
    Regex.search labelRe (pre ++ s) = Regex.search labelRe s := by
  induction pre with
  | nil => rfl
  | cons y pre1 ih =>
    have hy := hpre y (List.mem_cons_self _ _)
    rw [List.cons_append, Regex.search, labelRe_run_nonword y _ _ hy]
    exact ih (fun z hz => hpre z (List.mem_cons_of_mem _ hz))

theorem search_plain (pre : GoString) (p : GoString × GoString) (rest : GoString)
    (hpre : ∀ y ∈ pre, isWord y = false) (hne : p.1 ≠ [])
    (hk : ∀ x ∈ p.1, isWord x = true) (hv : '"' ∉ p.2) :
    Regex.search labelRe (pre ++ (renderPlain p ++ rest)) =
      some (rest, Caps.set (Caps.set Caps.none 3 p.1) 4 p.2) := by
  rw [search_skip_nonword pre _ hpre]
  have hcons : ∃ x xs, renderPlain p ++ rest = x :: xs := by
    cases hp : p.1 with
    | nil => exact absurd hp hne
    | cons x xs => exact ⟨x, xs ++ '=' :: '"' :: (p.2 ++ '"' :: rest), by simp [renderPlain, hp]⟩
  obtain ⟨x, xs, e⟩ := hcons
  have hrun := labelRe_run_plain p rest hne hk hv
  rw [e] at hrun ⊢
  rw [Regex.search, hrun]


theorem intercalate_singleton (sep a : GoString) : List.intercalate sep [a] = a := by
  simp [List.intercalate, List.intersperse]

theorem intercalate_cons_cons (sep a b : GoString) (l : List GoString) :
    List.intercalate sep (a :: b :: l) = a ++ (sep ++ List.intercalate sep (b :: l)) := by
  simp [List.intercalate, List.intersperse]

theorem allMatchesAux_nil (fuel : Nat) (afterMatch : Bool) :
    allMatchesAux labelRe fuel afterMatch [] = [] := by
  cases fuel with
  | zero => rfl
  | succ f => rfl

theorem allMatchesAux_step (fuel : Nat) (afterMatch : Bool) (pre : GoString)
    (p : GoString × GoString) (rest : GoString)
    (hpre : ∀ y ∈ pre, isWord y = false) (hne : p.1 ≠ [])
    (hk : ∀ x ∈ p.1, isWord x = true) (hv : '"' ∉ p.2) :
    allMatchesAux labelRe (fuel + 1) afterMatch (pre ++ (renderPlain p ++ rest)) =
      Caps.set (Caps.set Caps.none 3 p.1) 4 p.2 :: allMatchesAux labelRe fuel true rest := by
  have hlen : ¬ rest.length = (pre ++ (renderPlain p ++ rest)).length := by
    simp [renderPlain]
    omega
  rw [allMatchesAux, search_plain pre p rest hpre hne hk hv]
  simp only [hlen, if_false]

theorem allMatchesAux_plain (pairs : List (GoString × GoString))
    (hk : ∀ p ∈ pairs, p.1 ≠ [] ∧ ∀ x ∈ p.1, isWord x = true)
    (hv : ∀ p ∈ pairs, '"' ∉ p.2) :
    ∀ (pre : GoString) (fuel : Nat) (afterMatch : Bool), (∀ y ∈ pre, isWord y = false) →
      (pre ++ List.intercalate ", ".toList (pairs.map renderPlain)).length < fuel →
      allMatchesAux labelRe fuel afterMatch
          (pre ++ List.intercalate ", ".toList (pairs.map renderPlain)) =
        pairs.map (fun p => Caps.set (Caps.set Caps.none 3 p.1) 4 p.2) := by
  induction pairs with
  | nil =>
    intro pre fuel afterMatch hpre _
    have e : pre ++ List.intercalate ", ".toList (([] : List (GoString × GoString)).map
        renderPlain) = pre ++ [] := by simp [List.intercalate]
    rw [e]
    cases fuel with
    | zero => rfl
    | succ f =>
      rw [allMatchesAux, search_skip_nonword pre [] hpre]
      rfl
  | cons p rest ih =>
    intro pre fuel afterMatch hpre hfuel
    obtain ⟨hne, hkp⟩ := hk p (List.mem_cons_self _ _)
    have hvp := hv p (List.mem_cons_self _ _)
    have hk1 : ∀ q ∈ rest, q.1 ≠ [] ∧ ∀ x ∈ q.1, isWord x = true :=
      fun q hq => hk q (List.mem_cons_of_mem _ hq)
    have hv1 : ∀ q ∈ rest, '"' ∉ q.2 := fun q hq => hv q (List.mem_cons_of_mem _ hq)
    cases fuel with
    | zero => exact absurd hfuel (Nat.not_lt_zero _)
    | succ f =>
      cases rest with
      | nil =>
        have e : pre ++ List.intercalate ", ".toList ([p].map renderPlain) =
            pre ++ (renderPlain p ++ []) := by
          simp [intercalate_singleton]
        rw [e, allMatchesAux_step f afterMatch pre p [] hpre hne hkp hvp, allMatchesAux_nil]
        rfl
      | cons q rest1 =>
        have e : pre ++ List.intercalate ", ".toList ((p :: q :: rest1).map renderPlain) =
            pre ++ (renderPlain p ++
              (", ".toList ++ List.intercalate ", ".toList ((q :: rest1).map renderPlain))) := by
          simp only [List.map_cons, intercalate_cons_cons]
        rw [e] at hfuel ⊢
        rw [allMatchesAux_step f afterMatch pre p _ hpre hne hkp hvp]
        have hc : 0 < (renderPlain p).length := by
          simp [renderPlain]
        rw [ih hk1 hv1 ", ".toList f true (by decide) (by
          simp only [List.length_append] at hfuel ⊢
          omega)]
        rfl


/-! ## Trimming the braces -/

theorem stringsTrim_braces (body : GoString)
    (hfirst : ∀ x xs, body = x :: xs → x ≠ '\x7b' ∧ x ≠ '\x7d')
    (hlast : ∀ ys y, body = ys ++ [y] → y ≠ '\x7b' ∧ y ≠ '\x7d') :
    stringsTrim ('\x7b' :: (body ++ ['\x7d'])) "\x7b\x7d".toList = body := by
  cases body with
  | nil => decide
  | cons x xs =>
    obtain ⟨hx1, hx2⟩ := hfirst x xs rfl
    have hcut : ∀ y : Char, y ≠ '\x7b' → y ≠ '\x7d' →
        List.contains "\x7b\x7d".toList y = false := by
      intro y h1 h2
      have e : "\x7b\x7d".toList = ['\x7b', '\x7d'] := rfl
      simp [e, h1, h2]
    have hleft : stringsTrimLeft ('\x7b' :: (x :: xs ++ ['\x7d'])) "\x7b\x7d".toList =
        x :: xs ++ ['\x7d'] := by
      have hb : List.contains "\x7b\x7d".toList '\x7b' = true := by decide
      simp only [stringsTrimLeft, List.dropWhile, hb, List.cons_append, hcut x hx1 hx2]
      rfl
    rw [stringsTrim, hleft]
    rcases List.eq_nil_or_concat (x :: xs) with h | ⟨ys, y, h⟩
    · exact absurd h (List.cons_ne_nil _ _)
    · rw [List.concat_eq_append] at h
      obtain ⟨hy1, hy2⟩ := hlast ys y h
      have hb : List.contains "\x7b\x7d".toList '\x7d' = true := by decide
      rw [h]
      simp only [stringsTrimRight, List.reverse_append, List.reverse_cons, List.reverse_nil,
        List.nil_append, List.singleton_append, List.dropWhile, hb, hcut y hy1 hy2,
        List.reverse_reverse, List.cons_append]

/-! ## Shape of a rendered label string -/

theorem intercalate_plain_first (pairs : List (GoString × GoString))
    (hk : ∀ p ∈ pairs, p.1 ≠ [] ∧ ∀ x ∈ p.1, isWord x = true) :
    ∀ x xs, List.intercalate ", ".toList (pairs.map renderPlain) = x :: xs →
      isWord x = true := by
  intro x xs e
  cases pairs with
  | nil => simp [List.intercalate] at e
  | cons p rest =>
    obtain ⟨hne, hkp⟩ := hk p (List.mem_cons_self _ _)
    cases hp : p.1 with
    | nil => exact absurd hp hne
    | cons a as =>
      have ha : isWord a = true := hkp a (by rw [hp]; exact List.mem_cons_self _ _)
      cases rest with
      | nil =>
        simp only [List.map_cons, List.map_nil, intercalate_singleton, renderPlain, hp,
          List.cons_append, List.cons.injEq] at e
        rw [← e.1]
        exact ha
      | cons q rest1 =>
        simp only [List.map_cons, intercalate_cons_cons, renderPlain, hp,
          List.cons_append, List.cons.injEq] at e
        rw [← e.1]
        exact ha

theorem intercalate_plain_concat (pairs : List (GoString × GoString)) (hne : pairs ≠ []) :
    ∃ front, List.intercalate ", ".toList (pairs.map renderPlain) = front ++ ['"'] := by
  induction pairs with
  | nil => exact absurd rfl hne
  | cons p rest ih =>
    cases rest with
    | nil =>
      exact ⟨p.1 ++ "=\"".toList ++ p.2, by
        simp only [List.map_cons, List.map_nil, intercalate_singleton, renderPlain]
        rfl⟩
    | cons q rest1 =>
      obtain ⟨front, hf⟩ := ih (List.cons_ne_nil _ _)
      exact ⟨renderPlain p ++ (", ".toList ++ front), by
        simp only [List.map_cons, intercalate_cons_cons] at hf ⊢
        rw [hf]
        simp only [List.append_assoc]⟩

theorem intercalate_plain_last (pairs : List (GoString × GoString)) :
    ∀ ys y, List.intercalate ", ".toList (pairs.map renderPlain) = ys ++ [y] → y = '"' := by
  intro ys y e
  cases pairs with
  | nil => simp [List.intercalate] at e
  | cons p rest =>
    obtain ⟨front, hf⟩ := intercalate_plain_concat (p :: rest) (List.cons_ne_nil _ _)
    rw [hf] at e
    have := (List.append_inj' e rfl).2
    simp only [List.cons.injEq, and_true] at this
    exact this.symm


/-! ## Storing the matches -/

theorem storeMatch_plain (labels : LabelMap) (p : GoString × GoString) (hne : p.1 ≠ []) :
    storeMatch labels (Caps.set (Caps.set Caps.none 3 p.1) 4 p.2) = labels.set p.1 p.2 := by
  have h1 : Caps.set (Caps.set Caps.none 3 p.1) 4 p.2 1 = [] := rfl
  have h3 : Caps.set (Caps.set Caps.none 3 p.1) 4 p.2 3 = p.1 := rfl
  have h4 : Caps.set (Caps.set Caps.none 3 p.1) 4 p.2 4 = p.2 := rfl
  unfold storeMatch
  rw [h1, h3, h4]
  simp [hne]

theorem foldl_storeMatch_plain (pairs : List (GoString × GoString))
    (hk : ∀ p ∈ pairs, p.1 ≠ []) :
    ∀ labels : LabelMap,
      (pairs.map (fun p => Caps.set (Caps.set Caps.none 3 p.1) 4 p.2)).foldl storeMatch labels =
        pairs.foldl (fun m p => m.set p.1 p.2) labels := by
  induction pairs with
  | nil => intro labels; rfl
  | cons p rest ih =>
    intro labels
    simp only [List.map_cons, List.foldl_cons]
    rw [storeMatch_plain labels p (hk p (List.mem_cons_self _ _))]
    exact ih (fun q hq => hk q (List.mem_cons_of_mem _ hq)) _

theorem foldl_set_eq_lastValue (pairs : List (GoString × GoString)) :
    pairs.foldl (fun m p => LabelMap.set m p.1 p.2) LabelMap.empty = lastValue pairs := by
  induction pairs using List.reverseRecOn with
  | nil => rfl
  | append_singleton l p ih =>
    rw [List.foldl_append, List.foldl_cons, List.foldl_nil, ih]
    funext q
    unfold LabelMap.set lastValue
    rw [List.reverse_append, List.reverse_singleton, List.singleton_append, List.find?_cons]
    by_cases h : q = p.1
    · subst h
      simp
    · have h2 : (p.1 == q) = false := by
        simpa using fun e => h e.symm
      simp [h, h2]

/-- C5: for every list of pairs whose keys are non-empty words and whose
values hold no double quote, parsing the brace-delimited string of the pairs
written k="v" and separated by a comma and a blank gives the map that sends
each key to the value of its last occurrence and holds no other key. -/
theorem parseLabels_unescaped (pairs : List (GoString × GoString))
    (hk : ∀ p ∈ pairs, p.1 ≠ [] ∧ ∀ c ∈ p.1, isWord c = true)
    (hv : ∀ p ∈ pairs, '"' ∉ p.2) :
    parseLabels (labelString (pairs.map renderPlain)) = lastValue pairs := by
  have htrim : stringsTrim (labelString (pairs.map renderPlain)) "\x7b\x7d".toList =
      List.intercalate ", ".toList (pairs.map renderPlain) := by
    apply stringsTrim_braces
    · intro x xs e
      have hx := intercalate_plain_first pairs hk x xs e
      exact ⟨isWord_ne hx (by decide), isWord_ne hx (by decide)⟩
    · intro ys y e
      rw [intercalate_plain_last pairs ys y e]
      decide
  unfold parseLabels
  simp only [htrim, FindAllStringSubmatch]
  have hall := allMatchesAux_plain pairs hk hv []
    ((List.intercalate ", ".toList (pairs.map renderPlain)).length + 1) false
    (by simp) (by simp)
  rw [List.nil_append] at hall
  rw [hall, foldl_storeMatch_plain pairs (fun p hp => (hk p hp).1), foldl_set_eq_lastValue]

theorem parseLabels_unescaped_witness :
    ((∀ p ∈ [("a".toList, "1".toList), ("a".toList, "2".toList)],
        p.1 ≠ [] ∧ ∀ c ∈ p.1, isWord c = true) ∧
      (∀ p ∈ [("a".toList, "1".toList), ("a".toList, "2".toList)], '"' ∉ p.2) ∧
      labelString ([("a".toList, "1".toList), ("a".toList, "2".toList)].map renderPlain) =
        "\x7ba=\"1\", a=\"2\"\x7d".toList ∧
      parseLabels
          (labelString ([("a".toList, "1".toList), ("a".toList, "2".toList)].map renderPlain)) =
        lastValue [("a".toList, "1".toList), ("a".toList, "2".toList)] ∧
      lastValue [("a".toList, "1".toList), ("a".toList, "2".toList)] "a".toList =
        some "2".toList) ∧
    ((∀ p ∈ [("container_name".toList, "app".toList), ("level".toList, "error".toList)],
        p.1 ≠ [] ∧ ∀ c ∈ p.1, isWord c = true) ∧
      (∀ p ∈ [("container_name".toList, "app".toList), ("level".toList, "error".toList)],
        '"' ∉ p.2) ∧
      labelString ([("container_name".toList, "app".toList),
          ("level".toList, "error".toList)].map renderPlain) =
        "\x7bcontainer_name=\"app\", level=\"error\"\x7d".toList ∧
      parseLabels
          (labelString ([("container_name".toList, "app".toList),
            ("level".toList, "error".toList)].map renderPlain)) =
        lastValue [("container_name".toList, "app".toList), ("level".toList, "error".toList)] ∧
      lastValue [("container_name".toList, "app".toList), ("level".toList, "error".toList)]
          "container_name".toList = some "app".toList ∧
      lastValue [("container_name".toList, "app".toList), ("level".toList, "error".toList)]
          "level".toList = some "error".toList) :=
  ⟨⟨by decide, by decide, by decide,
      parseLabels_unescaped [("a".toList, "1".toList), ("a".toList, "2".toList)]
        (by decide) (by decide),
      by decide⟩,
    ⟨by decide, by decide, by decide,
      parseLabels_unescaped
        [("container_name".toList, "app".toList), ("level".toList, "error".toList)]
        (by decide) (by decide),
      by decide, by decide⟩⟩

/-- C6: on the label string `{a=\"1\", b=\"2\"}`, two pairs in the escaped
style, `parseLabels` returns a map with the single key `a`, bound to the text
`1\", b=\"2`, and without the key `b`: the first alternative of the
expression runs over the closing quote of the first pair up to the last
escaped quote. A single escaped pair, and an escaped pair followed by a plain
one, are parsed key by key. -/
theorem parseLabels_escaped_pairs_merge :
    labelString [renderEscaped ("a".toList, "1".toList), renderEscaped ("b".toList, "2".toList)] =
      "\x7ba=\\\"1\\\", b=\\\"2\\\"\x7d".toList ∧
    parseLabels "\x7ba=\\\"1\\\", b=\\\"2\\\"\x7d".toList "a".toList =
      some "1\\\", b=\\\"2".toList ∧
    parseLabels "\x7ba=\\\"1\\\", b=\\\"2\\\"\x7d".toList "b".toList = none ∧
    parseLabels "\x7ba=\\\"1\\\"\x7d".toList "a".toList = some "1".toList ∧
    parseLabels "\x7ba=\\\"1\\\", b=\"2\"\x7d".toList "a".toList = some "1".toList ∧
    parseLabels "\x7ba=\\\"1\\\", b=\"2\"\x7d".toList "b".toList = some "2".toList := by
  refine ⟨by decide, by decide, by decide, by decide, by decide, by decide⟩

end LokiNotification
